import Mathlib

/-!
Verification development for the two game-automation bots of the
`mofid_anniversary31` repository (`rocket_bot.py` and `shooter_bot.py`).

The perception layer of the source feeds OpenCV contours into pure
per-contour computations (area filters, bounding rectangles, image
moments).  A contour is embedded as a record of exactly the attributes
the source reads off it: `cv2.contourArea` (a float, embedded as `ℚ`),
`cv2.boundingRect` (four nonnegative integers), and the spatial moments
`m00`, `m10`, `m01` used by `find_rocket`.

Coordinates are integers (`ℤ`), matching the `int` values the source
manipulates; float arithmetic on those values (`np.sqrt`, `1.5 * r`,
`t * (ix - rx)`) is embedded as exact rational/real arithmetic.
-/

namespace RocketBot

/-- Truncation toward zero, the behaviour of Python's `int()` on a number. -/
def truncInt (q : ℚ) : ℤ := if 0 ≤ q then ⌊q⌋ else ⌈q⌉

/-- The attributes of an OpenCV contour that `rocket_bot.py` and
`shooter_bot.py` read: `cv2.contourArea`, `cv2.boundingRect` and the
spatial moments of `cv2.moments`. -/
structure Contour where
  area : ℚ
  x : ℕ
  y : ℕ
  w : ℕ
  h : ℕ
  m00 : ℚ
  m10 : ℚ
  m01 : ℚ
  deriving DecidableEq

/-- Moment-based (area-weighted) centroid of a contour:
`(int(m10/m00), int(m01/m00))` as computed in `find_rocket`. -/
def momentCentroid (c : Contour) : ℤ × ℤ :=
  (truncInt (c.m10 / c.m00), truncInt (c.m01 / c.m00))

/-- Bounding-box center `(x + w // 2, y + h // 2)` as computed in
`find_items` and `find_fireballs` (`//` is floor division; on the
nonnegative bounding-rectangle values it is `Nat` division). -/
def bboxCenter (c : Contour) : ℤ × ℤ :=
  ((c.x + c.w / 2 : ℕ), (c.y + c.h / 2 : ℕ))

/-- Python's `sorted(contours, key=cv2.contourArea, reverse=True)`:
a stable sort placing larger areas first. -/
def sortByAreaDesc (cs : List Contour) : List Contour :=
  cs.mergeSort (fun a b => decide (b.area ≤ a.area))

/-- The scanning loop of `find_rocket` (rocket_bot.py lines 121-129):
walk the area-sorted contours, take the first one whose area lies in
(500, 10000) and whose `m00` moment is positive, and return its
moment-based centroid. -/
def rocketScan : List Contour → Option (ℤ × ℤ)
  | [] => none
  | c :: rest =>
    if 500 < c.area ∧ c.area < 10000 then
      if 0 < c.m00 then some (momentCentroid c) else rocketScan rest
    else rocketScan rest

/-- `RocketBot.find_rocket` (rocket_bot.py lines 106-131) as a function of
the previous `self.rocket_pos` and the detected contours.  The value
returned is also the new `self.rocket_pos`: on success the source assigns
`self.rocket_pos = (cx, cy)` and returns it, otherwise it returns the
stored last known position unchanged. -/
def find_rocket (prev : Option (ℤ × ℤ)) (cs : List Contour) : Option (ℤ × ℤ) :=
  match rocketScan (sortByAreaDesc cs) with
  | some p => some p
  | none => prev

/-- An item detection `(cx, cy, area)` of `find_items`. -/
abbrev Item : Type := ℤ × ℤ × ℚ

/-- `RocketBot.find_items` (rocket_bot.py lines 133-158): contours with
area in (1000, 20000) and bounding-box aspect `w / h` in (0.5, 2.0)
become `(x + w // 2, y + h // 2, area)` detections. -/
def find_items (cs : List Contour) : List Item :=
  cs.filterMap fun c =>
    if 1000 < c.area ∧ c.area < 20000 then
      let aspect : ℚ := if 0 < c.h then (c.w : ℚ) / (c.h : ℚ) else 0
      if 1/2 < aspect ∧ aspect < 2 then
        some ((bboxCenter c).1, (bboxCenter c).2, c.area)
      else none
    else none

/-- A fireball detection of `find_fireballs`: center, bounding rectangle
and `danger_radius = max(w, h)`. -/
structure Fireball where
  center : ℤ × ℤ
  bounds : ℕ × ℕ × ℕ × ℕ
  danger_radius : ℕ
  deriving DecidableEq

/-- `RocketBot.find_fireballs` (rocket_bot.py lines 160-193): contours
with area above 2000 become fireball records whose center is the
bounding-box center. -/
def find_fireballs (cs : List Contour) : List Fireball :=
  cs.filterMap fun c =>
    if 2000 < c.area then
      some ⟨bboxCenter c, (c.x, c.y, c.w, c.h), max c.w c.h⟩
    else none

/-- Danger-zone construction of `calculate_safe_move` (lines 202-207):
one `(center_x, center_y, radius)` triple per fireball with
`radius = danger_radius * 1.5` (embedded exactly as `3/2`). -/
def danger_zones (fireballs : List Fireball) : List (ℤ × ℤ × ℚ) :=
  fireballs.map fun fb => (fb.center.1, fb.center.2, (fb.danger_radius : ℚ) * (3/2))

/-- The inner `is_safe` predicate of `calculate_safe_move` (lines
209-215).  The source computes `dist = np.sqrt((x-dx)**2 + (y-dy)**2)`
and tests `dist < radius`; since the squared distance `s` is
nonnegative, `Real.sqrt s < r` holds exactly when `0 < r ∧ s < r^2`,
and the embedding uses that rational form to stay executable.  The
equivalence with the literal Euclidean comparison is proved via
`rat_sq_lt_iff_sqrt_lt` below. -/
def is_safe (zones : List (ℤ × ℤ × ℚ)) (x y : ℤ) : Bool :=
  zones.all fun z =>
    ! decide (0 < z.2.2 ∧
      ((x - z.1 : ℤ) : ℚ) ^ 2 + ((y - z.2.1 : ℤ) : ℚ) ^ 2 < z.2.2 ^ 2)

/-- The five path-sampling parameters `np.linspace(0, 1, 5)` of
`calculate_safe_move` (line 226). -/
def samplePts : List ℚ := [0, 1/4, 1/2, 3/4, 1]

/-- One interpolated sample coordinate `int(r + t * (i - r))`
(lines 227-228); `int()` truncates toward zero. -/
def sampleCoord (r i : ℤ) (t : ℚ) : ℤ :=
  truncInt ((r : ℚ) + t * ((i : ℚ) - (r : ℚ)))

/-- Path safety of one collectible (lines 225-231): every one of the five
sampled points of the segment from the rocket to the item must be safe. -/
def path_safe (zones : List (ℤ × ℤ × ℚ)) (rx ry ix iy : ℤ) : Bool :=
  samplePts.all fun t => is_safe zones (sampleCoord rx ix t) (sampleCoord ry iy t)

/-- Squared Euclidean distance between two integer points, as a rational.
The source compares Euclidean distances `np.sqrt(...)` of candidate
items (line 234-235); comparing the squares is equivalent since square
roots of nonnegative reals are strictly monotone. -/
def distSq (rx ry ix iy : ℤ) : ℚ :=
  ((ix - rx : ℤ) : ℚ) ^ 2 + ((iy - ry : ℤ) : ℚ) ^ 2

/-- The running-minimum loop shape shared by the two selection loops of
`calculate_safe_move`: scan a list, keep the first element passing `p`
whose score is strictly below the best score so far (`best = none`
models the initial `float('inf')` best score, which any finite score
beats). -/
def argminLoop {α : Type} {β : Type} [LinearOrder β]
    (p : α → Bool) (f : α → β) : Option (α × β) → List α → Option (α × β)
  | acc, [] => acc
  | acc, a :: rest =>
    if p a then
      match acc with
      | none => argminLoop p f (some (a, f a)) rest
      | some (b, bs) =>
        if f a < bs then argminLoop p f (some (a, f a)) rest
        else argminLoop p f (some (b, bs)) rest
    else argminLoop p f acc rest

/-- The item-selection loop of `calculate_safe_move` (lines 217-237):
among path-safe items, the one of minimal distance to the rocket, the
earliest such item winning ties (the source updates only on a strict
distance decrease); the stored coordinates of the winner are returned. -/
def bestTarget (rx ry : ℤ) (zones : List (ℤ × ℤ × ℚ)) (items : List Item) :
    Option (ℤ × ℤ) :=
  (argminLoop (fun it : Item => path_safe zones rx ry it.1 it.2.1)
    (fun it : Item => distSq rx ry it.1 it.2.1) none items).map
    fun r => (r.1.1, r.1.2.1)

/-- The candidate positions of the fallback scan,
`range(50, frame_width - 50, 20)` (line 245). -/
def scanRange (frame_width : ℤ) : List ℤ :=
  (List.range ((frame_width - 81).fdiv 20).toNat).map fun i : ℕ => 50 + 20 * (i : ℤ)

/-- Cumulative danger score of a candidate point (lines 246-250): each
zone whose doubled radius exceeds the Euclidean distance to the
candidate contributes `radius * 2 - dist`. -/
noncomputable def dangerScore (zones : List (ℤ × ℤ × ℚ)) (x y : ℤ) : ℝ :=
  (zones.map fun z =>
    if Real.sqrt (((x - z.1 : ℤ) : ℝ) ^ 2 + ((y - z.2.1 : ℤ) : ℝ) ^ 2) <
        (z.2.2 : ℝ) * 2 then
      (z.2.2 : ℝ) * 2 -
        Real.sqrt (((x - z.1 : ℤ) : ℝ) ^ 2 + ((y - z.2.1 : ℤ) : ℝ) ^ 2)
    else 0).sum

/-- The fallback horizontal scan of `calculate_safe_move` (lines
239-256): the scanned x of minimal danger score, the earliest scanned
position winning ties; `safe_x` stays at the rocket's x when the scan
range is empty. -/
noncomputable def fallback_x (rx ry : ℤ) (zones : List (ℤ × ℤ × ℚ))
    (frame_width : ℤ) : ℤ :=
  match argminLoop (fun _ => true) (fun x => dangerScore zones x ry) none
      (scanRange frame_width) with
  | none => rx
  | some (x, _) => x

/-- `RocketBot.calculate_safe_move` (rocket_bot.py lines 195-258). -/
noncomputable def calculate_safe_move (rocket_pos : Option (ℤ × ℤ))
    (items : List Item) (fireballs : List Fireball) (frame_width : ℤ) :
    Option (ℤ × ℤ) :=
  match rocket_pos with
  | none => none
  | some (rx, ry) =>
    let zones := danger_zones fireballs
    match bestTarget rx ry zones items with
    | some t => some t
    | none => some (fallback_x rx ry zones frame_width, ry)

end RocketBot
namespace ShooterBot

/-- A detected red box `(x, y, w, h)` from `cv2.boundingRect` in
`find_red_boxes` (shooter_bot.py line 114). -/
abbrev Box : Type := ℕ × ℕ × ℕ × ℕ

/-- The comparison behind Python's tuple-keyed
`red_boxes.sort(key=lambda box: (box[1], box[0]))` (line 189):
lexicographic order on `(y, x)` — vertical coordinate first, then
horizontal. -/
def boxLe (a b : Box) : Bool :=
  decide (a.2.1 < b.2.1 ∨ (a.2.1 = b.2.1 ∧ a.1 ≤ b.1))

/-- The selection of `run_bot` (lines 188-192): stable sort of the
detected boxes by `(y, x)` and take the first element. -/
def selectBox (boxes : List Box) : Option Box :=
  (boxes.mergeSort boxLe).head?

/-- Click point `(x + w // 2, y + h // 2)` of the selected box
(lines 193-195). -/
def clickPoint (b : Box) : ℕ × ℕ :=
  (b.1 + b.2.2.1 / 2, b.2.1 + b.2.2.2 / 2)

/-- The cross-iteration state of `run_bot`: the time of the last
dispatched click and the click counter. -/
structure ShooterState where
  last_click_time : ℚ
  total_clicks : ℕ
  deriving DecidableEq

/-- The state at the top of `run_bot`'s loop:
`last_click_time = 0`, `total_clicks = 0` (lines 162, 173). -/
def initialShooterState : ShooterState := ⟨0, 0⟩

/-- What one loop iteration observes: the current wall-clock time
(`time.time()`, embedded exactly) and the red boxes detected in the
captured frame. -/
structure ShooterObs where
  time : ℚ
  boxes : List Box

/-- The click-dispatch section of one `run_bot` iteration (lines
185-199): if boxes were detected and at least `click_delay` seconds
elapsed since the last dispatched click, sort the boxes by `(y, x)`,
click the first box's center, bump the counter and record the click
time; otherwise observe without acting. -/
def shooterStep (click_delay : ℚ) (s : ShooterState) (o : ShooterObs) :
    ShooterState × Option (ℕ × ℕ) :=
  if o.boxes ≠ [] ∧ click_delay ≤ o.time - s.last_click_time then
    match selectBox o.boxes with
    | some b => (⟨o.time, s.total_clicks + 1⟩, some (clickPoint b))
    | none => (s, none)
  else (s, none)

/-- The dispatched clicks `(time, point)` of a run of the shooter loop
over a sequence of per-iteration observations. -/
def runShooter (click_delay : ℚ) : ShooterState → List ShooterObs →
    List (ℚ × ℕ × ℕ)
  | _, [] => []
  | s, o :: rest =>
    match shooterStep click_delay s o with
    | (s', some pt) => (o.time, pt) :: runShooter click_delay s' rest
    | (s', none) => runShooter click_delay s' rest

end ShooterBot

namespace RocketBot

/-- Pointer-device operations issued by the steering bot. -/
inductive MouseAct
  | moveTo (x y : ℤ)
  | down
  | up
  deriving DecidableEq

/-- Contours of the three color segmentations of one captured frame,
plus the frame width `frame.shape[1]`. -/
structure FrameData where
  rocketContours : List Contour
  itemContours : List Contour
  fireballContours : List Contour
  width : ℤ

/-- One loop iteration's capture result; `none` models a failed capture
(`capture_game` returning `None`). -/
abbrev IterInput : Type := Option FrameData

/-- The cross-iteration mutable state of `RocketBot`: last known rocket
position and whether the primary button is held (lines 45-47). -/
structure RocketState where
  rocket_pos : Option (ℤ × ℤ)
  mouse_pressed : Bool

/-- `RocketBot.move_rocket` (rocket_bot.py lines 260-291): with no game
region or no rocket position nothing happens; when the button is not
yet held the pointer moves to the rocket's screen position and presses
(no drag on that same iteration); otherwise it drags horizontally to
the target at the rocket's row.  Returns the new `mouse_pressed` flag
and the pointer actions issued. -/
def move_rocket (game_region : Option (ℤ × ℤ)) (mouse_pressed : Bool)
    (target_x : ℤ) (rocket_pos : Option (ℤ × ℤ)) : Bool × List MouseAct :=
  match game_region, rocket_pos with
  | some (l, t), some (px, py) =>
    if mouse_pressed then
      (mouse_pressed, [MouseAct.moveTo (l + target_x) (t + py)])
    else
      (true, [MouseAct.moveTo (l + px) (t + py), MouseAct.down])
  | _, _ => (mouse_pressed, [])

/-- One iteration of the body of `RocketBot.run`'s while loop (lines
325-344, pointer actions only): a failed capture is skipped; otherwise
the rocket state is refreshed through `find_rocket` and `move_rocket`
is invoked when a rocket position and a target exist. -/
noncomputable def rocketIter (game_region : Option (ℤ × ℤ))
    (s : RocketState) (inp : IterInput) : RocketState × List MouseAct :=
  match inp with
  | none => (s, [])
  | some fd =>
    let rp := find_rocket s.rocket_pos fd.rocketContours
    let items := find_items fd.itemContours
    let fireballs := find_fireballs fd.fireballContours
    match rp with
    | none => (⟨rp, s.mouse_pressed⟩, [])
    | some rpos =>
      match calculate_safe_move (some rpos) items fireballs fd.width with
      | none => (⟨rp, s.mouse_pressed⟩, [])
      | some target =>
        let r := move_rocket game_region s.mouse_pressed target.1 (some rpos)
        (⟨rp, r.1⟩, r.2)

/-- The completed iterations of the `try` block of `RocketBot.run`,
accumulating the issued pointer actions. -/
noncomputable def rocketLoop (game_region : Option (ℤ × ℤ)) :
    RocketState → List IterInput → RocketState × List MouseAct
  | s, [] => (s, [])
  | s, i :: rest =>
    let r1 := rocketIter game_region s i
    let r2 := rocketLoop game_region r1.1 rest
    (r2.1, r1.2 ++ r2.2)

/-- The ways the `try` block of `RocketBot.run` can end: the loop
condition turning false (stop flag or emergency key), the debug-window
break, a `KeyboardInterrupt`, or any other exception.  Python runs the
`finally` block before `run` returns on every one of them. -/
inductive ExitPath
  | normalStop
  | debugBreak
  | keyboardInterrupt
  | otherException
  deriving DecidableEq

/-- A full execution of `RocketBot.run` (lines 309-421): the completed
loop iterations followed — on every exit path — by the `finally` block,
which releases the button exactly when `self.mouse_pressed` holds
(lines 413-418).  The initial state has no rocket position and the
button not pressed. -/
noncomputable def rocketRun (game_region : Option (ℤ × ℤ))
    (inputs : List IterInput) (e : ExitPath) : List MouseAct :=
  let r := rocketLoop game_region ⟨none, false⟩ inputs
  match e with
  | _ => r.2 ++ (if r.1.mouse_pressed then [MouseAct.up] else [])

/-- Effect of one pointer action on the held/released status of the
primary button. -/
def buttonStep (b : Bool) (a : MouseAct) : Bool :=
  match a with
  | MouseAct.down => true
  | MouseAct.up => false
  | MouseAct.moveTo _ _ => b

/-- Whether the pointer button is held after performing a list of
actions, the button being initially released. -/
def buttonHeld (acts : List MouseAct) : Bool :=
  acts.foldl buttonStep false

end RocketBot

namespace RocketBot

section ArgminLemmas

variable {α β : Type} [LinearOrder β] (p : α → Bool) (f : α → β)

/-- Behaviour of the running-minimum loop from an already-populated
accumulator: the result is either the accumulator itself (when nothing
scanned beats it) or the first scanned element attaining the minimum. -/
theorem argminLoop_some_spec : ∀ (l : List α) (a0 : α),
    ∃ res, argminLoop p f (some (a0, f a0)) l = some (res, f res) ∧
      ((res = a0 ∧ ∀ b ∈ l, p b = true → f a0 ≤ f b) ∨
       (p res = true ∧ f res < f a0 ∧ (∀ b ∈ l, p b = true → f res ≤ f b) ∧
        ∃ l1 l2, l = l1 ++ res :: l2 ∧ ∀ b ∈ l1, p b = true → f res < f b))
  | [], a0 => ⟨a0, by simp [argminLoop]⟩
  | a :: rest, a0 => by
    by_cases hpa : p a = true
    · by_cases hlt : f a < f a0
      · obtain ⟨res, hres, hcase⟩ := argminLoop_some_spec rest a
        refine ⟨res, by simpa [argminLoop, hpa, hlt] using hres, Or.inr ?_⟩
        rcases hcase with ⟨rfl, hmin⟩ | ⟨hp, hlt2, hmin, l1, l2, hsplit, hstrict⟩
        · refine ⟨hpa, hlt, ?_, [], rest, rfl, by simp⟩
          intro b hb hpb
          rcases List.mem_cons.1 hb with rfl | hb
          · exact le_refl _
          · exact hmin b hb hpb
        · refine ⟨hp, lt_trans hlt2 hlt, ?_, a :: l1, l2, by simp [hsplit], ?_⟩
          · intro b hb hpb
            rcases List.mem_cons.1 hb with rfl | hb
            · exact le_of_lt hlt2
            · exact hmin b hb hpb
          · intro b hb hpb
            rcases List.mem_cons.1 hb with rfl | hb
            · exact hlt2
            · exact hstrict b hb hpb
      · obtain ⟨res, hres, hcase⟩ := argminLoop_some_spec rest a0
        refine ⟨res, by simpa [argminLoop, hpa, hlt] using hres, ?_⟩
        rcases hcase with ⟨rfl, hmin⟩ | ⟨hp, hlt2, hmin, l1, l2, hsplit, hstrict⟩
        · refine Or.inl ⟨rfl, ?_⟩
          intro b hb hpb
          rcases List.mem_cons.1 hb with rfl | hb
          · exact not_lt.1 hlt
          · exact hmin b hb hpb
        · refine Or.inr ⟨hp, hlt2, ?_, a :: l1, l2, by simp [hsplit], ?_⟩
          · intro b hb hpb
            rcases List.mem_cons.1 hb with rfl | hb
            · exact le_of_lt (lt_of_lt_of_le hlt2 (not_lt.1 hlt))
            · exact hmin b hb hpb
          · intro b hb hpb
            rcases List.mem_cons.1 hb with rfl | hb
            · exact lt_of_lt_of_le hlt2 (not_lt.1 hlt)
            · exact hstrict b hb hpb
    · obtain ⟨res, hres, hcase⟩ := argminLoop_some_spec rest a0
      refine ⟨res, by simpa [argminLoop, hpa] using hres, ?_⟩
      rcases hcase with ⟨rfl, hmin⟩ | ⟨hp, hlt2, hmin, l1, l2, hsplit, hstrict⟩
      · refine Or.inl ⟨rfl, ?_⟩
        intro b hb hpb
        rcases List.mem_cons.1 hb with rfl | hb
        · exact absurd hpb hpa
        · exact hmin b hb hpb
      · refine Or.inr ⟨hp, hlt2, ?_, a :: l1, l2, by simp [hsplit], ?_⟩
        · intro b hb hpb
          rcases List.mem_cons.1 hb with rfl | hb
          · exact absurd hpb hpa
          · exact hmin b hb hpb
        · intro b hb hpb
          rcases List.mem_cons.1 hb with rfl | hb
          · exact absurd hpb hpa
          · exact hstrict b hb hpb

/-- From an empty accumulator the loop returns `none` exactly when no
scanned element passes the filter. -/
theorem argminLoop_none_iff : ∀ l : List α,
    argminLoop p f none l = none ↔ ∀ a ∈ l, p a = false
  | [] => by simp [argminLoop]
  | a :: rest => by
    by_cases hpa : p a = true
    · obtain ⟨res, hres, _⟩ := argminLoop_some_spec p f rest a
      simp [argminLoop, hpa, hres]
    · rw [show argminLoop p f none (a :: rest) = argminLoop p f none rest from
        by simp [argminLoop, hpa]]
      rw [argminLoop_none_iff rest]
      constructor
      · intro h b hb
        rcases List.mem_cons.1 hb with rfl | hb
        · exact Bool.eq_false_iff.2 hpa
        · exact h b hb
      · intro h b hb
        exact h b (List.mem_cons_of_mem _ hb)

/-- When at least one scanned element passes the filter, the loop from
an empty accumulator returns the earliest filtered element of minimal
score. -/
theorem argminLoop_first_min : ∀ l : List α, (∃ a ∈ l, p a = true) →
    ∃ l1 res l2, l = l1 ++ res :: l2 ∧ p res = true ∧
      argminLoop p f none l = some (res, f res) ∧
      (∀ b ∈ l, p b = true → f res ≤ f b) ∧
      (∀ b ∈ l1, p b = true → f res < f b)
  | [], h => absurd h (by simp)
  | a :: rest, h => by
    by_cases hpa : p a = true
    · obtain ⟨res, hres, hcase⟩ := argminLoop_some_spec p f rest a
      have heq : argminLoop p f none (a :: rest) = some (res, f res) := by
        simpa [argminLoop, hpa] using hres
      rcases hcase with ⟨rfl, hmin⟩ | ⟨hp, hlt2, hmin, l1, l2, hsplit, hstrict⟩
      · refine ⟨[], res, rest, rfl, hpa, heq, ?_, by simp⟩
        intro b hb hpb
        rcases List.mem_cons.1 hb with rfl | hb
        · exact le_refl _
        · exact hmin b hb hpb
      · refine ⟨a :: l1, res, l2, by simp [hsplit], hp, heq, ?_, ?_⟩
        · intro b hb hpb
          rcases List.mem_cons.1 hb with rfl | hb
          · exact le_of_lt hlt2
          · exact hmin b hb hpb
        · intro b hb hpb
          rcases List.mem_cons.1 hb with rfl | hb
          · exact hlt2
          · exact hstrict b hb hpb
    · have h' : ∃ b ∈ rest, p b = true := by
        rcases h with ⟨b, hb, hpb⟩
        rcases List.mem_cons.1 hb with rfl | hb
        · exact absurd hpb hpa
        · exact ⟨b, hb, hpb⟩
      obtain ⟨l1, res, l2, hsplit, hp, heq, hmin, hstrict⟩ :=
        argminLoop_first_min rest h'
      refine ⟨a :: l1, res, l2, by simp [hsplit], hp,
        by simpa [argminLoop, hpa] using heq, ?_, ?_⟩
      · intro b hb hpb
        rcases List.mem_cons.1 hb with rfl | hb
        · exact absurd hpb hpa
        · exact hmin b hb hpb
      · intro b hb hpb
        rcases List.mem_cons.1 hb with rfl | hb
        · exact absurd hpb hpa
        · exact hstrict b hb hpb

end ArgminLemmas

end RocketBot
namespace RocketBot

/-- Bridge between the executable squared comparison and the literal
float comparison `np.sqrt(s) < r` of the source: for a nonnegative
squared distance, the strict square-root comparison is exactly the
rational test used in the embedding of `is_safe`. -/
theorem rat_sq_lt_iff_sqrt_lt (s r : ℚ) :
    (0 < r ∧ s < r ^ 2) ↔ Real.sqrt (s : ℝ) < (r : ℝ) := by
  constructor
  · rintro ⟨hr, hlt⟩
    have hr' : (0 : ℝ) < (r : ℝ) := by exact_mod_cast hr
    exact (Real.sqrt_lt' hr').2 (by exact_mod_cast hlt)
  · intro h
    have hr' : (0 : ℝ) < (r : ℝ) := lt_of_le_of_lt (Real.sqrt_nonneg _) h
    have hlt : (s : ℝ) < (r : ℝ) ^ 2 := (Real.sqrt_lt' hr').1 h
    exact ⟨by exact_mod_cast hr', by exact_mod_cast hlt⟩

/-- Unfolding of `is_safe` to its defining rational condition. -/
theorem is_safe_eq_false (zones : List (ℤ × ℤ × ℚ)) (x y : ℤ) :
    is_safe zones x y = false ↔
      ∃ z ∈ zones, 0 < z.2.2 ∧
        ((x - z.1 : ℤ) : ℚ) ^ 2 + ((y - z.2.1 : ℤ) : ℚ) ^ 2 < z.2.2 ^ 2 := by
  simp [is_safe]

/-- C2: for every set of danger zones and every integer point,
`is_safe` returns `false` exactly when some zone's center lies at
Euclidean distance strictly below that zone's radius from the point;
and the boundary case is safe: point `(3, 4)` sits at distance exactly
`5` from a zone of radius `5` centered at the origin and is classified
safe (the comparator of the source is strict). -/
theorem c2_is_safe_iff_euclidean :
    (∀ (zones : List (ℤ × ℤ × ℚ)) (x y : ℤ),
      is_safe zones x y = false ↔
        ∃ z ∈ zones,
          Real.sqrt (((x : ℝ) - (z.1 : ℝ)) ^ 2 + ((y : ℝ) - (z.2.1 : ℝ)) ^ 2) <
            (z.2.2 : ℝ)) ∧
    is_safe [((0 : ℤ), (0 : ℤ), (5 : ℚ))] 3 4 = true := by
  refine ⟨fun zones x y => ?_, by norm_num [is_safe]⟩
  rw [is_safe_eq_false]
  refine exists_congr fun z => and_congr_right fun _ => ?_
  rw [rat_sq_lt_iff_sqrt_lt]
  have hcast : ((((x - z.1 : ℤ) : ℚ) ^ 2 + ((y - z.2.1 : ℤ) : ℚ) ^ 2 : ℚ) : ℝ)
      = ((x : ℝ) - (z.1 : ℝ)) ^ 2 + ((y : ℝ) - (z.2.1 : ℝ)) ^ 2 := by
    push_cast; ring
  rw [hcast]

end RocketBot
namespace RocketBot

/-- Truncation toward zero is the identity on integers. -/
theorem truncInt_intCast (n : ℤ) : truncInt ((n : ℚ)) = n := by
  unfold truncInt
  split <;> simp

/-- The sample at parameter `t = 0` is the starting coordinate itself. -/
theorem sampleCoord_zero (r i : ℤ) : sampleCoord r i 0 = r := by
  simp [sampleCoord, truncInt_intCast]

/-- A collectible one of whose five path samples is unsafe is not
path-safe. -/
theorem path_safe_eq_false_of_sample (zones : List (ℤ × ℤ × ℚ))
    (rx ry ix iy : ℤ)
    (h : ∃ t ∈ samplePts,
      is_safe zones (sampleCoord rx ix t) (sampleCoord ry iy t) = false) :
    path_safe zones rx ry ix iy = false := by
  obtain ⟨t, ht, hfalse⟩ := h
  exact List.all_eq_false.2 ⟨t, ht, by simp [hfalse]⟩

/-- Whatever `bestTarget` returns is the stored coordinate pair of a
path-safe element of the item list. -/
theorem bestTarget_path_safe (rx ry : ℤ) (zones : List (ℤ × ℤ × ℚ))
    (items : List Item) (t : ℤ × ℤ)
    (h : bestTarget rx ry zones items = some t) :
    ∃ it ∈ items, t = (it.1, it.2.1) ∧
      path_safe zones rx ry it.1 it.2.1 = true := by
  set p := fun it : Item => path_safe zones rx ry it.1 it.2.1 with hp
  set f := fun it : Item => distSq rx ry it.1 it.2.1 with hf
  have hsome : argminLoop p f none items ≠ none := by
    intro hnone
    rw [bestTarget, hnone] at h
    simp at h
  have hex : ∃ a ∈ items, p a = true := by
    by_contra hall
    push_neg at hall
    exact hsome ((argminLoop_none_iff p f items).2
      fun a ha => Bool.eq_false_iff.2 (hall a ha))
  obtain ⟨l1, res, l2, _, hpres, heq, _, _⟩ := argminLoop_first_min p f items hex
  refine ⟨res, by simp [*], ?_, hpres⟩
  rw [bestTarget, heq] at h
  simpa using h.symm

/-- C3: a collectible one of whose five straight-segment samples
(at `t = 0, 0.25, 0.5, 0.75, 1`) is unsafe with respect to the hazard
danger zones is never the collectible selected by the path-safe
candidate loop of `calculate_safe_move`. -/
theorem c3_unsafe_sample_never_candidate (rx ry ix iy : ℤ) (a : ℚ)
    (items : List Item) (fireballs : List Fireball)
    (_hmem : ((ix, iy, a) : Item) ∈ items)
    (h : ∃ t ∈ samplePts,
      is_safe (danger_zones fireballs) (sampleCoord rx ix t)
        (sampleCoord ry iy t) = false) :
    bestTarget rx ry (danger_zones fireballs) items ≠ some (ix, iy) := by
  intro hsel
  obtain ⟨it, _, hcoords, hsafe⟩ :=
    bestTarget_path_safe rx ry (danger_zones fireballs) items (ix, iy) hsel
  have h1 : ix = it.1 := congrArg Prod.fst hcoords
  have h2 : iy = it.2.1 := congrArg Prod.snd hcoords
  rw [← h1, ← h2] at hsafe
  rw [path_safe_eq_false_of_sample (danger_zones fireballs) rx ry ix iy h]
    at hsafe
  exact Bool.false_ne_true hsafe

/-- Witness: with the agent at the origin, a collectible at `(10, 0)`
and a fireball whose danger zone is centered at `(5, 0)` with radius 3,
the midpoint sample `t = 1/2` lands on the zone center, so the
collectible is never selected. -/
theorem c3_witness :
    bestTarget 0 0 (danger_zones [⟨(5, 0), (0, 0, 4, 4), 2⟩])
      [((10 : ℤ), (0 : ℤ), (1200 : ℚ))] ≠ some (10, 0) :=
  c3_unsafe_sample_never_candidate 0 0 10 0 1200 _ _ (by simp)
    ⟨1/2, by norm_num [samplePts],
      by norm_num [danger_zones, is_safe, sampleCoord, truncInt]⟩

end RocketBot
namespace RocketBot

/-- When the agent's own position is unsafe, no collectible at all is
path-safe: the sample at `t = 0` is the agent position itself. -/
theorem path_safe_eq_false_of_agent_unsafe (zones : List (ℤ × ℤ × ℚ))
    (rx ry ix iy : ℤ) (h : is_safe zones rx ry = false) :
    path_safe zones rx ry ix iy = false :=
  path_safe_eq_false_of_sample zones rx ry ix iy
    ⟨0, by norm_num [samplePts], by rwa [sampleCoord_zero, sampleCoord_zero]⟩

/-- C10: whenever the agent position lies strictly inside some hazard
danger zone (Euclidean distance to the zone center below the zone
radius), no collectible is a path-safe candidate — the `t = 0` sample is
the agent position and is unsafe — so `calculate_safe_move` takes the
fallback horizontal-scan branch. -/
theorem c10_agent_in_zone_fallback (rx ry : ℤ) (items : List Item)
    (fireballs : List Fireball) (frame_width : ℤ)
    (h : ∃ z ∈ danger_zones fireballs,
      Real.sqrt (((rx : ℝ) - (z.1 : ℝ)) ^ 2 + ((ry : ℝ) - (z.2.1 : ℝ)) ^ 2) <
        (z.2.2 : ℝ)) :
    bestTarget rx ry (danger_zones fireballs) items = none ∧
    calculate_safe_move (some (rx, ry)) items fireballs frame_width =
      some (fallback_x rx ry (danger_zones fireballs) frame_width, ry) := by
  have hunsafe : is_safe (danger_zones fireballs) rx ry = false := by
    rw [is_safe_eq_false]
    obtain ⟨z, hz, hd⟩ := h
    refine ⟨z, hz, ?_⟩
    rw [rat_sq_lt_iff_sqrt_lt]
    have hcast : ((((rx - z.1 : ℤ) : ℚ) ^ 2 + ((ry - z.2.1 : ℤ) : ℚ) ^ 2 : ℚ) : ℝ)
        = ((rx : ℝ) - (z.1 : ℝ)) ^ 2 + ((ry : ℝ) - (z.2.1 : ℝ)) ^ 2 := by
      push_cast; ring
    rwa [hcast]
  have hbt : bestTarget rx ry (danger_zones fireballs) items = none := by
    rw [bestTarget, (argminLoop_none_iff _ _ items).2]
    · rfl
    · intro it _
      exact path_safe_eq_false_of_agent_unsafe _ rx ry it.1 it.2.1 hunsafe
  refine ⟨hbt, ?_⟩
  rw [calculate_safe_move]
  simp only [hbt]

/-- Witness: the agent sits exactly on a fireball center (distance 0,
radius 30), so with one collectible present the candidate loop yields
nothing and the planner falls back to the horizontal scan. -/
theorem c10_witness :
    bestTarget 100 100 (danger_zones [⟨(100, 100), (90, 90, 20, 20), 20⟩])
      [((150 : ℤ), (100 : ℤ), (2000 : ℚ))] = none ∧
    calculate_safe_move (some (100, 100)) [((150 : ℤ), (100 : ℤ), (2000 : ℚ))]
      [⟨(100, 100), (90, 90, 20, 20), 20⟩] 400 =
      some (fallback_x 100 100
        (danger_zones [⟨(100, 100), (90, 90, 20, 20), 20⟩]) 400, 100) :=
  c10_agent_in_zone_fallback 100 100 _ _ 400
    ⟨(100, 100, 30), by norm_num [danger_zones],
      by norm_num [Real.sqrt_zero]⟩

end RocketBot
namespace RocketBot

/-- C4: whenever some collectible is path-safe, `calculate_safe_move`
returns the stored coordinates of a path-safe item whose Euclidean
distance to the agent is minimal among all path-safe items, and every
path-safe item listed earlier is strictly farther (distance ties are
broken in favour of the earlier element); and in the concrete scenario
with the agent at `(100, 100)`, one collectible at `(150, 100)` and no
hazards, the returned target is `(150, 100)`. -/
theorem c4_closest_path_safe_selected (rx ry : ℤ) (items : List Item)
    (fireballs : List Fireball) (frame_width : ℤ)
    (h : ∃ it ∈ items,
      path_safe (danger_zones fireballs) rx ry it.1 it.2.1 = true) :
    (∃ l1 it l2, items = l1 ++ it :: l2 ∧
      path_safe (danger_zones fireballs) rx ry it.1 it.2.1 = true ∧
      calculate_safe_move (some (rx, ry)) items fireballs frame_width =
        some (it.1, it.2.1) ∧
      (∀ b ∈ items, path_safe (danger_zones fireballs) rx ry b.1 b.2.1 = true →
        Real.sqrt ((distSq rx ry it.1 it.2.1 : ℚ) : ℝ) ≤
          Real.sqrt ((distSq rx ry b.1 b.2.1 : ℚ) : ℝ)) ∧
      (∀ b ∈ l1, path_safe (danger_zones fireballs) rx ry b.1 b.2.1 = true →
        Real.sqrt ((distSq rx ry it.1 it.2.1 : ℚ) : ℝ) <
          Real.sqrt ((distSq rx ry b.1 b.2.1 : ℚ) : ℝ))) ∧
    (∀ (a : ℚ) (w : ℤ),
      calculate_safe_move (some (100, 100)) [((150 : ℤ), (100 : ℤ), a)] [] w =
        some (150, 100)) := by
  constructor
  · obtain ⟨l1, res, l2, hsplit, hpres, heq, hmin, hstrict⟩ :=
      argminLoop_first_min
        (fun it : Item => path_safe (danger_zones fireballs) rx ry it.1 it.2.1)
        (fun it : Item => distSq rx ry it.1 it.2.1) items h
    have hbt : bestTarget rx ry (danger_zones fireballs) items =
        some (res.1, res.2.1) := by
      rw [bestTarget, heq]
      rfl
    refine ⟨l1, res, l2, hsplit, hpres, ?_, ?_, ?_⟩
    · rw [calculate_safe_move]
      simp only [hbt]
    · intro b hb hpb
      exact Real.sqrt_le_sqrt (by exact_mod_cast hmin b hb hpb)
    · intro b hb hpb
      have h0 : (0 : ℚ) ≤ distSq rx ry res.1 res.2.1 := by
        unfold distSq; positivity
      exact Real.sqrt_lt_sqrt (by exact_mod_cast h0)
        (by exact_mod_cast hstrict b hb hpb)
  · intro a w
    have hps : path_safe (danger_zones []) 100 100 150 100 = true := by
      norm_num [path_safe, samplePts, is_safe, danger_zones]
    simp [calculate_safe_move, bestTarget, argminLoop, hps]

/-- Witness for C4: the concrete scenario of the claim, obtained by
applying the theorem with the agent at `(100, 100)`, one collectible at
`(150, 100)` and no hazards. -/
theorem c4_witness :
    (∃ l1 it l2,
      [((150 : ℤ), (100 : ℤ), (2000 : ℚ))] = l1 ++ it :: l2 ∧
      path_safe (danger_zones []) 100 100 it.1 it.2.1 = true ∧
      calculate_safe_move (some (100, 100))
        [((150 : ℤ), (100 : ℤ), (2000 : ℚ))] [] 400 = some (it.1, it.2.1) ∧
      (∀ b ∈ [((150 : ℤ), (100 : ℤ), (2000 : ℚ))],
        path_safe (danger_zones []) 100 100 b.1 b.2.1 = true →
        Real.sqrt ((distSq 100 100 it.1 it.2.1 : ℚ) : ℝ) ≤
          Real.sqrt ((distSq 100 100 b.1 b.2.1 : ℚ) : ℝ)) ∧
      (∀ b ∈ l1, path_safe (danger_zones []) 100 100 b.1 b.2.1 = true →
        Real.sqrt ((distSq 100 100 it.1 it.2.1 : ℚ) : ℝ) <
          Real.sqrt ((distSq 100 100 b.1 b.2.1 : ℚ) : ℝ))) ∧
    (∀ (a : ℚ) (w : ℤ),
      calculate_safe_move (some (100, 100)) [((150 : ℤ), (100 : ℤ), a)] [] w =
        some (150, 100)) :=
  c4_closest_path_safe_selected 100 100 [((150 : ℤ), (100 : ℤ), (2000 : ℚ))]
    [] 400
    ⟨((150 : ℤ), (100 : ℤ), (2000 : ℚ)), by simp,
      by norm_num [path_safe, samplePts, is_safe, danger_zones]⟩

end RocketBot
namespace RocketBot

/-- The scanned candidate positions are strictly increasing, so
"earliest scanned" and "leftmost" coincide. -/
theorem scanRange_pairwise (frame_width : ℤ) :
    (scanRange frame_width).Pairwise (· < ·) := by
  unfold scanRange
  rw [List.pairwise_map]
  refine (List.pairwise_lt_range _).imp ?_
  intro a b hab
  have h : (a : ℤ) < (b : ℤ) := by exact_mod_cast hab
  linarith

/-- The per-zone contribution of the danger score equals
`max 0 (radius * 2 - distance)`. -/
theorem dangerScore_eq_max_sum (zones : List (ℤ × ℤ × ℚ)) (x y : ℤ) :
    dangerScore zones x y =
      (zones.map fun z =>
        max 0 ((z.2.2 : ℝ) * 2 -
          Real.sqrt (((x - z.1 : ℤ) : ℝ) ^ 2 + ((y - z.2.1 : ℤ) : ℝ) ^ 2))).sum := by
  unfold dangerScore
  congr 1
  apply List.map_congr_left
  intro z _
  split
  · rename_i hlt
    exact (max_eq_right (le_of_lt (sub_pos.2 hlt))).symm
  · rename_i hge
    exact (max_eq_left (sub_nonpos.2 (not_lt.1 hge))).symm

/-- C5: when no collectible is path-safe and the horizontal scan range
is non-empty, `calculate_safe_move` returns a target at the agent's
vertical coordinate whose horizontal coordinate is a scanned position of
minimal cumulative danger score, every scanned position strictly to its
left having a strictly larger score (leftmost tie-break); the cumulative
danger score is the sum over hazards of `max 0 (radius * 2 - distance)`
measured at the agent's vertical coordinate. -/
theorem c5_fallback_minimizes_danger (rx ry : ℤ) (items : List Item)
    (fireballs : List Fireball) (frame_width : ℤ)
    (h1 : ∀ it ∈ items,
      path_safe (danger_zones fireballs) rx ry it.1 it.2.1 = false)
    (h2 : scanRange frame_width ≠ []) :
    ∃ x ∈ scanRange frame_width,
      calculate_safe_move (some (rx, ry)) items fireballs frame_width =
        some (x, ry) ∧
      (∀ x' ∈ scanRange frame_width,
        dangerScore (danger_zones fireballs) x ry ≤
          dangerScore (danger_zones fireballs) x' ry) ∧
      (∀ x' ∈ scanRange frame_width, x' < x →
        dangerScore (danger_zones fireballs) x ry <
          dangerScore (danger_zones fireballs) x' ry) ∧
      (∀ x' y' : ℤ,
        dangerScore (danger_zones fireballs) x' y' =
          ((danger_zones fireballs).map fun z =>
            max 0 ((z.2.2 : ℝ) * 2 -
              Real.sqrt (((x' - z.1 : ℤ) : ℝ) ^ 2 +
                ((y' - z.2.1 : ℤ) : ℝ) ^ 2))).sum) := by
  have hbt : bestTarget rx ry (danger_zones fireballs) items = none := by
    rw [bestTarget, (argminLoop_none_iff _ _ items).2]
    · rfl
    · exact h1
  obtain ⟨a, ha⟩ := List.exists_mem_of_ne_nil _ h2
  obtain ⟨l1, res, l2, hsplit, _, heq, hmin, hstrict⟩ :=
    argminLoop_first_min (fun _ : ℤ => true)
      (fun x => dangerScore (danger_zones fireballs) x ry)
      (scanRange frame_width) ⟨a, ha, rfl⟩
  have hres_mem : res ∈ scanRange frame_width := by
    rw [hsplit]
    exact List.mem_append.2 (Or.inr (List.mem_cons_self _ _))
  have hfx : fallback_x rx ry (danger_zones fireballs) frame_width = res := by
    unfold fallback_x
    rw [heq]
  refine ⟨res, hres_mem, ?_, ?_, ?_, ?_⟩
  · rw [calculate_safe_move]
    simp only [hbt, hfx]
  · intro x' hx'
    exact hmin x' hx' rfl
  · intro x' hx' hlt
    have hpw := scanRange_pairwise frame_width
    rw [hsplit] at hpw hx'
    rcases List.mem_append.1 hx' with hx1 | hx2
    · exact hstrict x' hx1 rfl
    · rcases List.mem_cons.1 hx2 with rfl | hx2
      · exact absurd hlt (lt_irrefl _)
      · have hgt : res < x' :=
          (List.pairwise_cons.1 (List.pairwise_append.1 hpw).2.1).1 x' hx2
        exact absurd hlt (not_lt.2 (le_of_lt hgt))
  · intro x' y'
    exact dangerScore_eq_max_sum _ x' y'

/-- Witness for C5: no collectibles, one fireball on the agent's row
with danger zone centered at `(90, 0)`, frame width 200; the scan range
`[50, 70, 90, 110, 130]` is non-empty and a minimizing position is
returned. -/
theorem c5_witness :
    ∃ x ∈ scanRange 200,
      calculate_safe_move (some (100, 0)) []
        [⟨(90, 0), (80, 0, 20, 5), 10⟩] 200 = some (x, 0) ∧
      (∀ x' ∈ scanRange 200,
        dangerScore (danger_zones [⟨(90, 0), (80, 0, 20, 5), 10⟩]) x 0 ≤
          dangerScore (danger_zones [⟨(90, 0), (80, 0, 20, 5), 10⟩]) x' 0) ∧
      (∀ x' ∈ scanRange 200, x' < x →
        dangerScore (danger_zones [⟨(90, 0), (80, 0, 20, 5), 10⟩]) x 0 <
          dangerScore (danger_zones [⟨(90, 0), (80, 0, 20, 5), 10⟩]) x' 0) ∧
      (∀ x' y' : ℤ,
        dangerScore (danger_zones [⟨(90, 0), (80, 0, 20, 5), 10⟩]) x' y' =
          ((danger_zones [⟨(90, 0), (80, 0, 20, 5), 10⟩]).map fun z =>
            max 0 ((z.2.2 : ℝ) * 2 -
              Real.sqrt (((x' - z.1 : ℤ) : ℝ) ^ 2 +
                ((y' - z.2.1 : ℤ) : ℝ) ^ 2))).sum) :=
  c5_fallback_minimizes_danger 100 0 [] [⟨(90, 0), (80, 0, 20, 5), 10⟩] 200
    (by simp) (by decide)

end RocketBot
namespace RocketBot

/-- A successful rocket scan exhibits a contour passing both the area
filter and the positive-`m00` test, whose moment centroid is the scan
result. -/
theorem rocketScan_eq_some : ∀ (l : List Contour) (p : ℤ × ℤ),
    rocketScan l = some p →
    ∃ c ∈ l, (500 < c.area ∧ c.area < 10000) ∧ 0 < c.m00 ∧
      p = momentCentroid c
  | [], p, h => by simp [rocketScan] at h
  | c :: rest, p, h => by
    by_cases harea : 500 < c.area ∧ c.area < 10000
    · by_cases hm : 0 < c.m00
      · refine ⟨c, List.mem_cons_self _ _, harea, hm, ?_⟩
        rw [rocketScan, if_pos harea, if_pos hm] at h
        exact (Option.some.injEq _ _ ▸ h).symm
      · rw [rocketScan, if_pos harea, if_neg hm] at h
        obtain ⟨c', hc', hrest⟩ := rocketScan_eq_some rest p h
        exact ⟨c', List.mem_cons_of_mem _ hc', hrest⟩
    · rw [rocketScan, if_neg harea] at h
      obtain ⟨c', hc', hrest⟩ := rocketScan_eq_some rest p h
      exact ⟨c', List.mem_cons_of_mem _ hc', hrest⟩

/-- When no contour passes the area filter the rocket scan fails. -/
theorem rocketScan_eq_none : ∀ l : List Contour,
    (∀ c ∈ l, ¬(500 < c.area ∧ c.area < 10000)) → rocketScan l = none
  | [], _ => rfl
  | c :: rest, h => by
    rw [rocketScan, if_neg (h c (List.mem_cons_self _ _))]
    exact rocketScan_eq_none rest fun c' hc' => h c' (List.mem_cons_of_mem _ hc')

/-- C9: the stored last-known rocket position is only overwritten when
some contour of the current frame passes the area filter; when no
contour does, `find_rocket` returns the previous position unchanged —
an empty detection never clears it. -/
theorem c9_rocket_pos_persistence (prev : Option (ℤ × ℤ))
    (cs : List Contour) :
    (find_rocket prev cs ≠ prev →
      ∃ c ∈ cs, 500 < c.area ∧ c.area < 10000) ∧
    ((∀ c ∈ cs, ¬(500 < c.area ∧ c.area < 10000)) →
      find_rocket prev cs = prev) := by
  constructor
  · intro hne
    rcases hscan : rocketScan (sortByAreaDesc cs) with _ | p
    · rw [find_rocket, hscan] at hne
      exact absurd rfl hne
    · obtain ⟨c, hc, hfilter, _, _⟩ := rocketScan_eq_some _ p hscan
      exact ⟨c, List.mem_mergeSort.1 hc, hfilter⟩
  · intro hall
    have hscan : rocketScan (sortByAreaDesc cs) = none :=
      rocketScan_eq_none _ fun c hc => hall c (List.mem_mergeSort.1 hc)
    rw [find_rocket, hscan]

/-- Witness for C9: a frame whose only contour fails the area filter
(area 100) leaves a stored position `(3, 4)` untouched. -/
theorem c9_witness :
    find_rocket (some (3, 4)) [⟨100, 0, 0, 5, 5, 100, 200, 300⟩] =
      some (3, 4) :=
  (c9_rocket_pos_persistence (some (3, 4))
    [⟨100, 0, 0, 5, 5, 100, 200, 300⟩]).2 (by norm_num)

end RocketBot
namespace RocketBot

/-- Every detection of `find_items` is the bounding-box center (and
area) of one of the input contours. -/
theorem find_items_mem (cs : List Contour) (d : Item)
    (hd : d ∈ find_items cs) :
    ∃ c ∈ cs, d = ((bboxCenter c).1, (bboxCenter c).2, c.area) := by
  obtain ⟨c, hc, hfc⟩ := List.mem_filterMap.1 hd
  refine ⟨c, hc, ?_⟩
  dsimp only at hfc
  by_cases h1 : 1000 < c.area ∧ c.area < 20000
  · rw [if_pos h1] at hfc
    by_cases h2 : 1/2 < (if 0 < c.h then (c.w : ℚ) / (c.h : ℚ) else 0) ∧
        (if 0 < c.h then (c.w : ℚ) / (c.h : ℚ) else 0) < 2
    · rw [if_pos h2] at hfc
      exact (Option.some.inj hfc).symm
    · rw [if_neg h2] at hfc
      exact absurd hfc (by simp)
  · rw [if_neg h1] at hfc
    exact absurd hfc (by simp)

/-- Every detection of `find_fireballs` is centered at the bounding-box
center of one of the input contours. -/
theorem find_fireballs_mem (cs : List Contour) (fb : Fireball)
    (hfb : fb ∈ find_fireballs cs) :
    ∃ c ∈ cs, fb.center = bboxCenter c := by
  obtain ⟨c, hc, hfc⟩ := List.mem_filterMap.1 hfb
  refine ⟨c, hc, ?_⟩
  split at hfc
  · cases hfc
    rfl
  · exact absurd hfc (by simp)

end RocketBot

namespace ShooterBot

/-- The selected box is one of the detected boxes. -/
theorem selectBox_mem (boxes : List Box) (b : Box)
    (h : selectBox boxes = some b) : b ∈ boxes := by
  rcases hms : boxes.mergeSort boxLe with _ | ⟨b', tl⟩
  · rw [selectBox, hms] at h
    exact absurd h (by simp)
  · rw [selectBox, hms] at h
    have hb : b' = b := by simpa using h
    subst hb
    have hmem : b' ∈ boxes.mergeSort boxLe := by
      rw [hms]
      exact List.mem_cons_self _ _
    exact List.mem_mergeSort.1 hmem

end ShooterBot

namespace RocketBot

/-- Counterexample to C1 as stated: a right-triangle-shaped contour
with vertices `(0,0)`, `(60,0)`, `(0,60)` has area 1800 (passing the
item filter), bounding box `(0, 0, 60, 60)` and moments
`m00 = 1800, m10 = m01 = 36000`.  `find_items` records centroid
`(30, 30)` — the bounding-box center — while the moment-based centroid
is `(20, 20)`, so `find_items` does not return moment-based centroids. -/
theorem c1_counterexample :
    find_items [⟨1800, 0, 0, 60, 60, 1800, 36000, 36000⟩] =
      [((30 : ℤ), (30 : ℤ), (1800 : ℚ))] ∧
    momentCentroid ⟨1800, 0, 0, 60, 60, 1800, 36000, 36000⟩ = (20, 20) ∧
    ((30 : ℤ), (30 : ℤ)) ≠ ((20 : ℤ), (20 : ℤ)) := by
  refine ⟨?_, ?_, by decide⟩
  · norm_num [find_items, bboxCenter, List.filterMap_cons]
  · norm_num [momentCentroid, truncInt]

/-- C1 as amended: only the agent detector (`find_rocket`) records the
moment-based centroid; the collectible and hazard detectors
(`find_items`, `find_fireballs`) and the shooter's click point all use
the bounding-box center. -/
theorem c1_amended_centroids :
    (∀ (prev : Option (ℤ × ℤ)) (cs : List Contour) (p : ℤ × ℤ),
      rocketScan (sortByAreaDesc cs) = some p →
      find_rocket prev cs = some p ∧
      ∃ c ∈ cs, (500 < c.area ∧ c.area < 10000) ∧ 0 < c.m00 ∧
        p = momentCentroid c) ∧
    (∀ cs : List Contour, ∀ d ∈ find_items cs,
      ∃ c ∈ cs, d = ((bboxCenter c).1, (bboxCenter c).2, c.area)) ∧
    (∀ cs : List Contour, ∀ fb ∈ find_fireballs cs,
      ∃ c ∈ cs, fb.center = bboxCenter c) ∧
    (∀ (click_delay : ℚ) (s s' : ShooterBot.ShooterState)
      (o : ShooterBot.ShooterObs) (pt : ℕ × ℕ),
      ShooterBot.shooterStep click_delay s o = (s', some pt) →
      ∃ b ∈ o.boxes, pt = ShooterBot.clickPoint b) := by
  refine ⟨?_, find_items_mem, find_fireballs_mem, ?_⟩
  · intro prev cs p hscan
    obtain ⟨c, hc, hrest⟩ := rocketScan_eq_some _ p hscan
    exact ⟨by rw [find_rocket, hscan], c, List.mem_mergeSort.1 hc, hrest⟩
  · intro click_delay s s' o pt h
    rw [ShooterBot.shooterStep] at h
    split at h
    · rcases hsel : ShooterBot.selectBox o.boxes with _ | b
      · rw [hsel] at h
        exact absurd (congrArg Prod.snd h) (by simp)
      · rw [hsel] at h
        have hpt : pt = ShooterBot.clickPoint b := by
          have := congrArg Prod.snd h
          simpa using this.symm
        exact ⟨b, ShooterBot.selectBox_mem o.boxes b hsel, hpt⟩
    · exact absurd (congrArg Prod.snd h) (by simp)

/-- Witness for the amended C1: the triangle contour of the
counterexample, run through the collectible conjunct — its recorded
detection is the bounding-box center `(30, 30)` of a contour of the
frame. -/
theorem c1_witness :
    ∃ c ∈ [(⟨1800, 0, 0, 60, 60, 1800, 36000, 36000⟩ : Contour)],
      ((30 : ℤ), (30 : ℤ), (1800 : ℚ)) =
        ((bboxCenter c).1, (bboxCenter c).2, c.area) :=
  c1_amended_centroids.2.1 [⟨1800, 0, 0, 60, 60, 1800, 36000, 36000⟩]
    ((30 : ℤ), (30 : ℤ), (1800 : ℚ))
    (by rw [show find_items [(⟨1800, 0, 0, 60, 60, 1800, 36000, 36000⟩ : Contour)]
          = [((30 : ℤ), (30 : ℤ), (1800 : ℚ))] from
        by norm_num [find_items, bboxCenter, List.filterMap_cons]]
        simp)

end RocketBot
namespace ShooterBot

/-- The `(y, x)` box order is transitive. -/
theorem boxLe_trans (a b c : Box) (hab : boxLe a b = true)
    (hbc : boxLe b c = true) : boxLe a c = true := by
  simp only [boxLe, decide_eq_true_eq] at hab hbc ⊢
  omega

/-- The `(y, x)` box order is total. -/
theorem boxLe_total (a b : Box) : (boxLe a b || boxLe b a) = true := by
  simp only [boxLe, Bool.or_eq_true, decide_eq_true_eq]
  omega

/-- On a non-empty detection list the selector returns a detected box
minimal in the `(y, x)` order. -/
theorem selectBox_min (boxes : List Box) (hne : boxes ≠ []) :
    ∃ b, selectBox boxes = some b ∧ b ∈ boxes ∧
      ∀ b' ∈ boxes, b.2.1 < b'.2.1 ∨ (b.2.1 = b'.2.1 ∧ b.1 ≤ b'.1) := by
  have hsorted := List.sorted_mergeSort boxLe_trans boxLe_total boxes
  rcases hms : boxes.mergeSort boxLe with _ | ⟨b, tl⟩
  · exfalso
    rcases boxes with _ | ⟨x, xs⟩
    · exact hne rfl
    · have hx : x ∈ (x :: xs).mergeSort boxLe :=
        List.mem_mergeSort.2 (List.mem_cons_self _ _)
      rw [hms] at hx
      exact absurd hx (List.not_mem_nil _)
  · refine ⟨b, by rw [selectBox, hms]; rfl, ?_, ?_⟩
    · have hb : b ∈ boxes.mergeSort boxLe := by
        rw [hms]
        exact List.mem_cons_self _ _
      exact List.mem_mergeSort.1 hb
    · intro b' hb'
      have hb'sorted : b' ∈ boxes.mergeSort boxLe := List.mem_mergeSort.2 hb'
      rw [hms] at hb'sorted
      have hle : boxLe b b' = true := by
        rcases List.mem_cons.1 hb'sorted with rfl | hb'tl
        · simp [boxLe]
        · rw [hms] at hsorted
          exact (List.pairwise_cons.1 hsorted).1 b' hb'tl
      simpa only [boxLe, decide_eq_true_eq] using hle

/-- C6: on every non-empty list of target-box detections the selector
returns a detected box that is minimal in the `(y, x)` order — topmost
first, then leftmost; the selection is deterministic (equal inputs give
equal outputs); and of the two boxes `(10,10,20,20)` and
`(5,50,20,20)` the selector picks `(10,10,20,20)`, the one with the
smaller vertical coordinate. -/
theorem c6_selector_topmost_leftmost (boxes : List Box)
    (hne : boxes ≠ []) :
    (∃ b, selectBox boxes = some b ∧ b ∈ boxes ∧
      ∀ b' ∈ boxes,
        b.2.1 < b'.2.1 ∨ (b.2.1 = b'.2.1 ∧ b.1 ≤ b'.1)) ∧
    (∀ boxes' : List Box, boxes' = boxes →
      selectBox boxes' = selectBox boxes) ∧
    selectBox [((10 : ℕ), (10 : ℕ), (20 : ℕ), (20 : ℕ)),
        ((5 : ℕ), (50 : ℕ), (20 : ℕ), (20 : ℕ))] =
      some ((10 : ℕ), (10 : ℕ), (20 : ℕ), (20 : ℕ)) := by
  refine ⟨selectBox_min boxes hne, fun boxes' h => by rw [h], ?_⟩
  obtain ⟨b, hsel, hmem, hmin⟩ := selectBox_min
    [((10 : ℕ), (10 : ℕ), (20 : ℕ), (20 : ℕ)),
      ((5 : ℕ), (50 : ℕ), (20 : ℕ), (20 : ℕ))] (by simp)
  rcases List.mem_cons.1 hmem with rfl | hmem2
  · exact hsel
  · exfalso
    have := hmin ((10 : ℕ), (10 : ℕ), (20 : ℕ), (20 : ℕ))
      (List.mem_cons_self _ _)
    have hb : b = ((5 : ℕ), (50 : ℕ), (20 : ℕ), (20 : ℕ)) := by
      simpa using hmem2
    subst hb
    simp at this

/-- Witness for C6: applying the selector theorem to the two-box
scenario of the claim. -/
theorem c6_witness :
    (∃ b, selectBox [((10 : ℕ), (10 : ℕ), (20 : ℕ), (20 : ℕ)),
        ((5 : ℕ), (50 : ℕ), (20 : ℕ), (20 : ℕ))] = some b ∧
      b ∈ [((10 : ℕ), (10 : ℕ), (20 : ℕ), (20 : ℕ)),
        ((5 : ℕ), (50 : ℕ), (20 : ℕ), (20 : ℕ))] ∧
      ∀ b' ∈ [((10 : ℕ), (10 : ℕ), (20 : ℕ), (20 : ℕ)),
        ((5 : ℕ), (50 : ℕ), (20 : ℕ), (20 : ℕ))],
        b.2.1 < b'.2.1 ∨ (b.2.1 = b'.2.1 ∧ b.1 ≤ b'.1)) ∧
    (∀ boxes' : List Box,
      boxes' = [((10 : ℕ), (10 : ℕ), (20 : ℕ), (20 : ℕ)),
        ((5 : ℕ), (50 : ℕ), (20 : ℕ), (20 : ℕ))] →
      selectBox boxes' =
        selectBox [((10 : ℕ), (10 : ℕ), (20 : ℕ), (20 : ℕ)),
          ((5 : ℕ), (50 : ℕ), (20 : ℕ), (20 : ℕ))]) ∧
    selectBox [((10 : ℕ), (10 : ℕ), (20 : ℕ), (20 : ℕ)),
        ((5 : ℕ), (50 : ℕ), (20 : ℕ), (20 : ℕ))] =
      some ((10 : ℕ), (10 : ℕ), (20 : ℕ), (20 : ℕ)) :=
  c6_selector_topmost_leftmost
    [((10 : ℕ), (10 : ℕ), (20 : ℕ), (20 : ℕ)),
      ((5 : ℕ), (50 : ℕ), (20 : ℕ), (20 : ℕ))] (by simp)

end ShooterBot
namespace ShooterBot

/-- An iteration that dispatches no click leaves the state unchanged. -/
theorem shooterStep_none (d : ℚ) (s : ShooterState) (o : ShooterObs)
    (h : (shooterStep d s o).2 = none) : (shooterStep d s o).1 = s := by
  by_cases hcond : o.boxes ≠ [] ∧ d ≤ o.time - s.last_click_time
  · rcases hsel : selectBox o.boxes with _ | b
    · simp [shooterStep, hcond, hsel]
    · simp [shooterStep, hcond, hsel] at h
  · simp [shooterStep, hcond]

/-- An iteration that dispatches a click does so only when at least the
click delay elapsed since the recorded last click, and records the
current time as the new last-click time. -/
theorem shooterStep_some (d : ℚ) (s : ShooterState) (o : ShooterObs)
    (pt : ℕ × ℕ) (h : (shooterStep d s o).2 = some pt) :
    (shooterStep d s o).1.last_click_time = o.time ∧
      d ≤ o.time - s.last_click_time := by
  by_cases hcond : o.boxes ≠ [] ∧ d ≤ o.time - s.last_click_time
  · rcases hsel : selectBox o.boxes with _ | b
    · simp [shooterStep, hcond, hsel] at h
    · simp only [shooterStep, if_pos hcond, hsel]
      exact ⟨trivial, hcond.2⟩
  · simp [shooterStep, hcond] at h

/-- Along any run of the shooter loop the dispatched click times grow
by at least the click delay between consecutive clicks, and the first
click comes at least the delay after the recorded last-click time. -/
theorem runShooter_chain (d : ℚ) : ∀ (obs : List ShooterObs)
    (s : ShooterState),
    List.Chain' (fun a b : ℚ × ℕ × ℕ => a.1 + d ≤ b.1)
      (runShooter d s obs) ∧
    ∀ c, (runShooter d s obs).head? = some c →
      s.last_click_time + d ≤ c.1
  | [], s => ⟨List.chain'_nil, fun c hc => by simp [runShooter] at hc⟩
  | o :: rest, s => by
    rcases hstep : shooterStep d s o with ⟨s', opt⟩
    rcases opt with _ | pt
    · have hs' : s' = s := by
        have h := shooterStep_none d s o (by rw [hstep])
        rw [hstep] at h
        exact h
      have hrun : runShooter d s (o :: rest) = runShooter d s rest := by
        simp only [runShooter, hstep, hs']
      obtain ⟨ih1, ih2⟩ := runShooter_chain d rest s
      rw [hrun]
      exact ⟨ih1, ih2⟩
    · have hc := shooterStep_some d s o pt (by rw [hstep])
      rw [hstep] at hc
      have hrun : runShooter d s (o :: rest) =
          (o.time, pt) :: runShooter d s' rest := by
        simp only [runShooter, hstep]
      obtain ⟨ih1, ih2⟩ := runShooter_chain d rest s'
      rw [hrun]
      constructor
      · rw [List.chain'_cons']
        refine ⟨?_, ih1⟩
        intro y hy
        have hb := ih2 y (Option.mem_def.1 hy)
        rw [hc.1] at hb
        exact hb
      · intro c hcc
        have hceq : (o.time, pt) = c := by simpa using hcc
        rw [← hceq]
        have hd := hc.2
        show s.last_click_time + d ≤ o.time
        linarith

/-- C7: for a nonnegative click delay, any two clicks dispatched during
one run of the shooter loop — whatever boxes are detected in between —
are at least the click delay apart: the dispatch times are pairwise
separated by at least `click_delay`. -/
theorem c7_click_rate_limit (click_delay : ℚ) (h : 0 ≤ click_delay)
    (s0 : ShooterState) (obs : List ShooterObs) :
    (runShooter click_delay s0 obs).Pairwise
      (fun a b => a.1 + click_delay ≤ b.1) := by
  have htrans : Transitive
      (fun a b : ℚ × ℕ × ℕ => a.1 + click_delay ≤ b.1) := by
    intro a b c hab hbc
    have hb : b.1 ≤ b.1 + click_delay := by linarith
    calc a.1 + click_delay ≤ b.1 := hab
      _ ≤ b.1 + click_delay := hb
      _ ≤ c.1 := hbc
  haveI : IsTrans (ℚ × ℕ × ℕ)
      (fun a b => a.1 + click_delay ≤ b.1) := ⟨htrans⟩
  exact List.chain'_iff_pairwise.1 (runShooter_chain click_delay obs s0).1

/-- Witness for C7: a run from the initial state with delay `1/2` over
two observation frames, each detecting one box. -/
theorem c7_witness :
    (runShooter (1/2) initialShooterState
      [⟨1, [((0 : ℕ), (0 : ℕ), (2 : ℕ), (2 : ℕ))]⟩,
       ⟨5/4, [((1 : ℕ), (1 : ℕ), (2 : ℕ), (2 : ℕ))]⟩]).Pairwise
      (fun a b => a.1 + 1/2 ≤ b.1) :=
  c7_click_rate_limit (1/2) (by norm_num) initialShooterState
    [⟨1, [((0 : ℕ), (0 : ℕ), (2 : ℕ), (2 : ℕ))]⟩,
     ⟨5/4, [((1 : ℕ), (1 : ℕ), (2 : ℕ), (2 : ℕ))]⟩]

end ShooterBot
namespace RocketBot

/-- The button status after the actions of one `move_rocket` call is
the flag `move_rocket` reports back. -/
theorem foldl_buttonStep_move_rocket (gr : Option (ℤ × ℤ))
    (pressed : Bool) (tx : ℤ) (rp : Option (ℤ × ℤ)) :
    List.foldl buttonStep pressed (move_rocket gr pressed tx rp).2 =
      (move_rocket gr pressed tx rp).1 := by
  rcases gr with _ | ⟨l, t⟩
  · simp [move_rocket]
  · rcases rp with _ | ⟨px, py⟩
    · simp [move_rocket]
    · cases pressed <;> simp [move_rocket, buttonStep]

/-- The button status after one loop iteration's actions is the
`mouse_pressed` flag of the resulting state. -/
theorem foldl_buttonStep_iter (gr : Option (ℤ × ℤ)) (s : RocketState)
    (i : IterInput) :
    List.foldl buttonStep s.mouse_pressed (rocketIter gr s i).2 =
      (rocketIter gr s i).1.mouse_pressed := by
  rcases i with _ | fd
  · simp [rocketIter]
  · simp only [rocketIter]
    rcases hrp : find_rocket s.rocket_pos fd.rocketContours with _ | rpos
    · simp
    · dsimp only
      rcases hcalc : calculate_safe_move (some rpos)
        (find_items fd.itemContours) (find_fireballs fd.fireballContours)
        fd.width with _ | target
      · simp
      · simpa using foldl_buttonStep_move_rocket gr s.mouse_pressed
          target.1 (some rpos)

/-- The button status after all completed loop iterations is the
`mouse_pressed` flag of the final state. -/
theorem foldl_buttonStep_loop (gr : Option (ℤ × ℤ)) :
    ∀ (inputs : List IterInput) (s : RocketState),
    List.foldl buttonStep s.mouse_pressed (rocketLoop gr s inputs).2 =
      (rocketLoop gr s inputs).1.mouse_pressed
  | [], s => by simp [rocketLoop]
  | i :: rest, s => by
    simp only [rocketLoop]
    rw [List.foldl_append, foldl_buttonStep_iter]
    exact foldl_buttonStep_loop gr rest _

/-- C8: on every exit path of the steering bot's run loop — normal
stop, debug break, keyboard interrupt, or any other exception — the
`finally` block leaves the pointer button released: the button status
after all pointer actions of the run is `false`. -/
theorem c8_mouse_release_on_exit (gr : Option (ℤ × ℤ))
    (inputs : List IterInput) (e : ExitPath) :
    buttonHeld (rocketRun gr inputs e) = false := by
  cases e <;>
  · rw [buttonHeld, rocketRun]
    rw [List.foldl_append]
    have hloop := foldl_buttonStep_loop gr inputs ⟨none, false⟩
    rw [show (⟨none, false⟩ : RocketState).mouse_pressed = false from rfl]
      at hloop
    rw [hloop]
    rcases hp : (rocketLoop gr ⟨none, false⟩ inputs).1.mouse_pressed <;>
      simp [buttonStep]

end RocketBot
